import Mathlib

/-!
# Verification of `src/demo/full/scripts/lib/bytes.ts`

The byte/string utilities of the rx-player demo are embedded shallowly:

* a JavaScript string is a list of UTF-16 code units (`List Nat`, each < 2^16);
* a `Uint8Array` is a list of bytes (`List Nat`, each < 256);
* the browser primitives the code calls (`encodeURIComponent`, `unescape`,
  `escape`, `decodeURIComponent`, `String.fromCharCode`) are modelled from
  ECMA-262; a primitive that can throw `URIError` returns `Option`, with
  `none` standing for the thrown error.

Each exported function of `bytes.ts` is translated statement by statement;
environment-dependent branches (`typeof window.unescape === "function"`,
`typeof window.escape !== "function"`) are modelled by an explicit `Bool`
parameter recording whether the deprecated primitive is available.
-/

namespace RxBytes

/-! ## Hexadecimal characters -/

/-- Value of a hexadecimal digit character (`0-9`, `A-F`, `a-f`),
as computed by `parseInt(—, 16)` on a single digit. -/
def hexDigitVal (c : Nat) : Nat :=
  if c ≤ 0x39 then c - 0x30
  else if c ≤ 0x46 then c - 0x41 + 10
  else c - 0x61 + 10

/-- The character class `/[0-9a-fA-F]/` (`isHexChar` in `strToUtf8`). -/
def IsHexDigit (c : Nat) : Prop :=
  (0x30 ≤ c ∧ c ≤ 0x39) ∨ (0x41 ≤ c ∧ c ≤ 0x46) ∨ (0x61 ≤ c ∧ c ≤ 0x66)

instance (c : Nat) : Decidable (IsHexDigit c) := by
  unfold IsHexDigit; infer_instance

/-- Lowercase hex digit character for a value < 16 (as in `Number.toString(16)`). -/
def hexDigitLower (n : Nat) : Nat := if n < 10 then 0x30 + n else 0x61 + (n - 10)

/-- Uppercase hex digit character for a value < 16 (as produced by
`encodeURIComponent` percent escapes). -/
def hexDigitUpper (n : Nat) : Nat := if n < 10 then 0x30 + n else 0x41 + (n - 10)

/-- Value of a two-hex-digit string. -/
def hex2 (h1 h2 : Nat) : Nat := hexDigitVal h1 * 16 + hexDigitVal h2

/-- Value of a four-hex-digit string. -/
def hex4 (h1 h2 h3 h4 : Nat) : Nat :=
  ((hexDigitVal h1 * 16 + hexDigitVal h2) * 16 + hexDigitVal h3) * 16 + hexDigitVal h4

/-- Structural helper for `natToHexDigits`: one division step per fuel unit
(the fuel is always sufficient; see `natToHexDigits_eq`). -/
def natToHexDigitsAux : Nat → Nat → List Nat
  | 0, n => [hexDigitLower n]
  | fuel + 1, n =>
    if n < 16 then [hexDigitLower n]
    else natToHexDigitsAux fuel (n / 16) ++ [hexDigitLower (n % 16)]

/-- `num.toString(16)`: lowercase hexadecimal digit characters of `num`
(most significant first, `0` rendered as `"0"`). -/
def natToHexDigits (n : Nat) : List Nat := natToHexDigitsAux n n

/-- `intToHex` (bytes.ts lines 150–155): `num.toString(16)`, left-padded
with `"0"` up to `size` characters, returned unpadded when already long enough. -/
def intToHex (num size : Nat) : List Nat :=
  let toStr := natToHexDigits num
  if size ≤ toStr.length then toStr
  else List.replicate (size - toStr.length) 0x30 ++ toStr

/-- Numeric value of a string of hex digit characters, most significant first. -/
def hexStrVal (l : List Nat) : Nat :=
  l.foldl (fun acc d => acc * 16 + hexDigitVal d) 0

/-- A lowercase hexadecimal digit character (`0-9`, `a-f`). -/
def IsLowerHexDigit (c : Nat) : Prop :=
  (0x30 ≤ c ∧ c ≤ 0x39) ∨ (0x61 ≤ c ∧ c ≤ 0x66)

instance (c : Nat) : Decidable (IsLowerHexDigit c) := by
  unfold IsLowerHexDigit; infer_instance

/-! ## Unicode scalar values, UTF-16 and UTF-8 -/

/-- A Unicode scalar value: a code point that is not a surrogate. -/
def ValidScalar (c : Nat) : Prop := c < 0x110000 ∧ (c < 0xD800 ∨ 0xE000 ≤ c)

instance (c : Nat) : Decidable (ValidScalar c) := by
  unfold ValidScalar; infer_instance

/-- A text: a sequence of Unicode scalar values. -/
def ValidText (t : List Nat) : Prop := ∀ c ∈ t, ValidScalar c

instance (t : List Nat) : Decidable (ValidText t) := by
  unfold ValidText; infer_instance

/-- UTF-16 encoding of one scalar value (one code unit, or a surrogate pair). -/
def utf16EncodeChar (c : Nat) : List Nat :=
  if c < 0x10000 then [c]
  else [0xD800 + (c - 0x10000) / 0x400, 0xDC00 + (c - 0x10000) % 0x400]

/-- UTF-16 code units of a text: the JavaScript string holding that text. -/
def utf16Encode (t : List Nat) : List Nat := (t.map utf16EncodeChar).flatten

/-- UTF-8 encoding of one scalar value. -/
def utf8EncodeChar (c : Nat) : List Nat :=
  if c < 0x80 then [c]
  else if c < 0x800 then [0xC0 + c / 0x40, 0x80 + c % 0x40]
  else if c < 0x10000 then
    [0xE0 + c / 0x1000, 0x80 + c / 0x40 % 0x40, 0x80 + c % 0x40]
  else
    [0xF0 + c / 0x40000, 0x80 + c / 0x1000 % 0x40, 0x80 + c / 0x40 % 0x40, 0x80 + c % 0x40]

/-- UTF-8 encoding of a text. -/
def utf8Encode (t : List Nat) : List Nat := (t.map utf8EncodeChar).flatten

/-- Scalar value encoded by a two-byte UTF-8 sequence. -/
def utf8Val2 (b0 b1 : Nat) : Nat := (b0 - 0xC0) * 0x40 + (b1 - 0x80)

/-- Scalar value encoded by a three-byte UTF-8 sequence. -/
def utf8Val3 (b0 b1 b2 : Nat) : Nat :=
  (b0 - 0xE0) * 0x1000 + (b1 - 0x80) * 0x40 + (b2 - 0x80)

/-- Scalar value encoded by a four-byte UTF-8 sequence. -/
def utf8Val4 (b0 b1 b2 b3 : Nat) : Nat :=
  (b0 - 0xF0) * 0x40000 + (b1 - 0x80) * 0x1000 + (b2 - 0x80) * 0x40 + (b3 - 0x80)

/-- A UTF-8 continuation byte (`10xxxxxx`). -/
def ContOk (b : Nat) : Prop := 0x80 ≤ b ∧ b < 0xC0

instance (b : Nat) : Decidable (ContOk b) := by
  unfold ContOk; infer_instance

/-! ## ECMA-262 platform primitives -/

/-- The `uriUnescaped` set of `encodeURIComponent`:
`A-Z a-z 0-9 - _ . ! ~ * ' ( )`. -/
def IsUriUnreserved (c : Nat) : Prop :=
  (0x41 ≤ c ∧ c ≤ 0x5A) ∨ (0x61 ≤ c ∧ c ≤ 0x7A) ∨ (0x30 ≤ c ∧ c ≤ 0x39) ∨
  c = 0x2D ∨ c = 0x5F ∨ c = 0x2E ∨ c = 0x21 ∨ c = 0x7E ∨
  c = 0x2A ∨ c = 0x27 ∨ c = 0x28 ∨ c = 0x29

instance (c : Nat) : Decidable (IsUriUnreserved c) := by
  unfold IsUriUnreserved; infer_instance

/-- The percent escape `"%XY"` of a byte, uppercase hex (ECMA-262 `Encode`). -/
def percentByte (b : Nat) : List Nat := [0x25, hexDigitUpper (b / 16), hexDigitUpper (b % 16)]

/-- ECMA-262 `encodeURIComponent` over code-unit lists: unreserved code units
are copied, everything else is combined into a code point (a lone surrogate is
a `URIError`, i.e. `none`) and percent-encoded byte by byte in UTF-8. -/
def encodeURIComponent : List Nat → Option (List Nat)
  | [] => some []
  | c :: rest =>
    if IsUriUnreserved c then
      (encodeURIComponent rest).map fun r => c :: r
    else if c < 0xD800 ∨ 0xE000 ≤ c then
      (encodeURIComponent rest).map fun r => ((utf8EncodeChar c).map percentByte).flatten ++ r
    else if c < 0xDC00 then
      match rest with
      | c2 :: rest2 =>
        if 0xDC00 ≤ c2 ∧ c2 < 0xE000 then
          (encodeURIComponent rest2).map fun r =>
            ((utf8EncodeChar (0x10000 + (c - 0xD800) * 0x400 + (c2 - 0xDC00))).map
              percentByte).flatten ++ r
        else none
      | [] => none
    else none

/-- Per-scalar shape of the `encodeURIComponent` output: an unreserved
character is copied, anything else becomes the percent escapes of its UTF-8
bytes. -/
def pcChar (c : Nat) : List Nat :=
  if IsUriUnreserved c then [c] else ((utf8EncodeChar c).map percentByte).flatten

/-- ECMA-262 B.2.1.2 `unescape`: `"%uXXXX"` and `"%XX"` escapes are decoded to
single code units, everything else is copied.  Total. -/
def nativeUnescape : List Nat → List Nat
  | [] => []
  | c :: u :: h1 :: h2 :: h3 :: h4 :: rest4 =>
    if c = 0x25 ∧ u = 0x75 ∧ IsHexDigit h1 ∧ IsHexDigit h2 ∧ IsHexDigit h3 ∧ IsHexDigit h4 then
      hex4 h1 h2 h3 h4 :: nativeUnescape rest4
    else if c = 0x25 ∧ IsHexDigit u ∧ IsHexDigit h1 then
      hex2 u h1 :: nativeUnescape (h2 :: h3 :: h4 :: rest4)
    else c :: nativeUnescape (u :: h1 :: h2 :: h3 :: h4 :: rest4)
  | c :: h1 :: h2 :: rest2 =>
    if c = 0x25 ∧ IsHexDigit h1 ∧ IsHexDigit h2 then
      hex2 h1 h2 :: nativeUnescape rest2
    else c :: nativeUnescape (h1 :: h2 :: rest2)
  | c :: rest => c :: nativeUnescape rest

/-- The self-contained `unescape` fallback of `strToUtf8` (bytes.ts lines
79–108).  It mirrors ECMA-262 `unescape`, except that in the `"%uXXXX"` case it
computes `parseInt(pcStr.substring(i + 1, i + 6), 16)` — the substring starts
at the letter `u`, so `parseInt` yields `NaN` and `String.fromCharCode(NaN)`
yields the code unit 0. -/
def unescapeFallback : List Nat → List Nat
  | [] => []
  | c :: u :: h1 :: h2 :: h3 :: h4 :: rest4 =>
    if c = 0x25 ∧ u = 0x75 ∧ IsHexDigit h1 ∧ IsHexDigit h2 ∧ IsHexDigit h3 ∧ IsHexDigit h4 then
      0 :: unescapeFallback rest4
    else if c = 0x25 ∧ IsHexDigit u ∧ IsHexDigit h1 then
      hex2 u h1 :: unescapeFallback (h2 :: h3 :: h4 :: rest4)
    else c :: unescapeFallback (u :: h1 :: h2 :: h3 :: h4 :: rest4)
  | c :: h1 :: h2 :: rest2 =>
    if c = 0x25 ∧ IsHexDigit h1 ∧ IsHexDigit h2 then
      hex2 h1 h2 :: unescapeFallback rest2
    else c :: unescapeFallback (h1 :: h2 :: rest2)
  | c :: rest => c :: unescapeFallback rest

/-- The character class `/[A-Za-z0-9*_+-./]/` of the `escape` fallback in
`utf8ToStr` (bytes.ts line 182); inside the class `+-.` is the range
`0x2B`–`0x2E`, so the set is `A-Z a-z 0-9 * _ + , - . /`. -/
def IsNonEscapedChar (c : Nat) : Prop :=
  (0x41 ≤ c ∧ c ≤ 0x5A) ∨ (0x61 ≤ c ∧ c ≤ 0x7A) ∨ (0x30 ≤ c ∧ c ≤ 0x39) ∨
  c = 0x2A ∨ c = 0x5F ∨ (0x2B ≤ c ∧ c ≤ 0x2E) ∨ c = 0x2F

instance (c : Nat) : Decidable (IsNonEscapedChar c) := by
  unfold IsNonEscapedChar; infer_instance

/-- The self-contained `escape` fallback of `utf8ToStr` (bytes.ts lines
181–195): characters of the class above are copied, any other code unit `v`
becomes `"%u" + intToHex(v, 4)` when `v >= 256` and `"%" + intToHex(v, 2)`
otherwise (lowercase hex). -/
def escapeFallback (s : List Nat) : List Nat :=
  (s.map fun c =>
    if IsNonEscapedChar c then [c]
    else if 0x100 ≤ c then 0x25 :: 0x75 :: intToHex c 4
    else 0x25 :: intToHex c 2).flatten

/-- ECMA-262 `decodeURIComponent` (the `Decode` abstract operation with an
empty reserved set) over code-unit lists; `none` is a thrown `URIError`.
A `%` must head a two-hex-digit escape; a lead byte with high bit set must be
followed by the right number of continuation escapes, and the collected octets
must be a valid (shortest-form) UTF-8 encoding of a Unicode scalar value,
whose UTF-16 code units are appended. -/
def decodeURIComponent : List Nat → Option (List Nat)
  | [] => some []
  | c :: h1 :: h2 :: p1 :: g1 :: g2 :: p2 :: g3 :: g4 :: p3 :: g5 :: g6 :: rest =>
    if c = 0x25 then
      if IsHexDigit h1 ∧ IsHexDigit h2 then
        if hex2 h1 h2 < 0x80 then
          (decodeURIComponent (p1 :: g1 :: g2 :: p2 :: g3 :: g4 :: p3 :: g5 :: g6 :: rest)).map
            fun r => hex2 h1 h2 :: r
        else if hex2 h1 h2 < 0xC0 then none
        else if hex2 h1 h2 < 0xE0 then
          if p1 = 0x25 ∧ IsHexDigit g1 ∧ IsHexDigit g2 ∧ ContOk (hex2 g1 g2) ∧
              utf8EncodeChar (utf8Val2 (hex2 h1 h2) (hex2 g1 g2)) =
                [hex2 h1 h2, hex2 g1 g2] ∧
              ValidScalar (utf8Val2 (hex2 h1 h2) (hex2 g1 g2)) then
            (decodeURIComponent (p2 :: g3 :: g4 :: p3 :: g5 :: g6 :: rest)).map
              fun r => utf16EncodeChar (utf8Val2 (hex2 h1 h2) (hex2 g1 g2)) ++ r
          else none
        else if hex2 h1 h2 < 0xF0 then
          if p1 = 0x25 ∧ p2 = 0x25 ∧ IsHexDigit g1 ∧ IsHexDigit g2 ∧
              IsHexDigit g3 ∧ IsHexDigit g4 ∧
              ContOk (hex2 g1 g2) ∧ ContOk (hex2 g3 g4) ∧
              utf8EncodeChar (utf8Val3 (hex2 h1 h2) (hex2 g1 g2) (hex2 g3 g4)) =
                [hex2 h1 h2, hex2 g1 g2, hex2 g3 g4] ∧
              ValidScalar (utf8Val3 (hex2 h1 h2) (hex2 g1 g2) (hex2 g3 g4)) then
            (decodeURIComponent (p3 :: g5 :: g6 :: rest)).map
              fun r => utf16EncodeChar (utf8Val3 (hex2 h1 h2) (hex2 g1 g2) (hex2 g3 g4)) ++ r
          else none
        else if hex2 h1 h2 < 0xF8 then
          if p1 = 0x25 ∧ p2 = 0x25 ∧ p3 = 0x25 ∧
              IsHexDigit g1 ∧ IsHexDigit g2 ∧ IsHexDigit g3 ∧ IsHexDigit g4 ∧
              IsHexDigit g5 ∧ IsHexDigit g6 ∧
              ContOk (hex2 g1 g2) ∧ ContOk (hex2 g3 g4) ∧ ContOk (hex2 g5 g6) ∧
              utf8EncodeChar
                  (utf8Val4 (hex2 h1 h2) (hex2 g1 g2) (hex2 g3 g4) (hex2 g5 g6)) =
                [hex2 h1 h2, hex2 g1 g2, hex2 g3 g4, hex2 g5 g6] ∧
              ValidScalar (utf8Val4 (hex2 h1 h2) (hex2 g1 g2) (hex2 g3 g4) (hex2 g5 g6)) then
            (decodeURIComponent rest).map
              fun r =>
                utf16EncodeChar (utf8Val4 (hex2 h1 h2) (hex2 g1 g2) (hex2 g3 g4) (hex2 g5 g6))
                  ++ r
          else none
        else none
      else none
    else
      (decodeURIComponent (h1 :: h2 :: p1 :: g1 :: g2 :: p2 :: g3 :: g4 :: p3 :: g5 :: g6 ::
        rest)).map fun r => c :: r
  | c :: h1 :: h2 :: p1 :: g1 :: g2 :: p2 :: g3 :: g4 :: rest =>
    if c = 0x25 then
      if IsHexDigit h1 ∧ IsHexDigit h2 then
        if hex2 h1 h2 < 0x80 then
          (decodeURIComponent (p1 :: g1 :: g2 :: p2 :: g3 :: g4 :: rest)).map
            fun r => hex2 h1 h2 :: r
        else if hex2 h1 h2 < 0xC0 then none
        else if hex2 h1 h2 < 0xE0 then
          if p1 = 0x25 ∧ IsHexDigit g1 ∧ IsHexDigit g2 ∧ ContOk (hex2 g1 g2) ∧
              utf8EncodeChar (utf8Val2 (hex2 h1 h2) (hex2 g1 g2)) =
                [hex2 h1 h2, hex2 g1 g2] ∧
              ValidScalar (utf8Val2 (hex2 h1 h2) (hex2 g1 g2)) then
            (decodeURIComponent (p2 :: g3 :: g4 :: rest)).map
              fun r => utf16EncodeChar (utf8Val2 (hex2 h1 h2) (hex2 g1 g2)) ++ r
          else none
        else if hex2 h1 h2 < 0xF0 then
          if p1 = 0x25 ∧ p2 = 0x25 ∧ IsHexDigit g1 ∧ IsHexDigit g2 ∧
              IsHexDigit g3 ∧ IsHexDigit g4 ∧
              ContOk (hex2 g1 g2) ∧ ContOk (hex2 g3 g4) ∧
              utf8EncodeChar (utf8Val3 (hex2 h1 h2) (hex2 g1 g2) (hex2 g3 g4)) =
                [hex2 h1 h2, hex2 g1 g2, hex2 g3 g4] ∧
              ValidScalar (utf8Val3 (hex2 h1 h2) (hex2 g1 g2) (hex2 g3 g4)) then
            (decodeURIComponent rest).map
              fun r => utf16EncodeChar (utf8Val3 (hex2 h1 h2) (hex2 g1 g2) (hex2 g3 g4)) ++ r
          else none
        else none
      else none
    else
      (decodeURIComponent (h1 :: h2 :: p1 :: g1 :: g2 :: p2 :: g3 :: g4 :: rest)).map
        fun r => c :: r
  | c :: h1 :: h2 :: p1 :: g1 :: g2 :: rest =>
    if c = 0x25 then
      if IsHexDigit h1 ∧ IsHexDigit h2 then
        if hex2 h1 h2 < 0x80 then
          (decodeURIComponent (p1 :: g1 :: g2 :: rest)).map fun r => hex2 h1 h2 :: r
        else if hex2 h1 h2 < 0xC0 then none
        else if hex2 h1 h2 < 0xE0 then
          if p1 = 0x25 ∧ IsHexDigit g1 ∧ IsHexDigit g2 ∧ ContOk (hex2 g1 g2) ∧
              utf8EncodeChar (utf8Val2 (hex2 h1 h2) (hex2 g1 g2)) =
                [hex2 h1 h2, hex2 g1 g2] ∧
              ValidScalar (utf8Val2 (hex2 h1 h2) (hex2 g1 g2)) then
            (decodeURIComponent rest).map
              fun r => utf16EncodeChar (utf8Val2 (hex2 h1 h2) (hex2 g1 g2)) ++ r
          else none
        else none
      else none
    else (decodeURIComponent (h1 :: h2 :: p1 :: g1 :: g2 :: rest)).map fun r => c :: r
  | c :: h1 :: h2 :: rest =>
    if c = 0x25 then
      if IsHexDigit h1 ∧ IsHexDigit h2 then
        if hex2 h1 h2 < 0x80 then
          (decodeURIComponent rest).map fun r => hex2 h1 h2 :: r
        else none
      else none
    else (decodeURIComponent (h1 :: h2 :: rest)).map fun r => c :: r
  | c :: rest =>
    if c = 0x25 then none
    else (decodeURIComponent rest).map fun r => c :: r

/-! ## The functions of `bytes.ts` -/

/-- `strToLeUtf16` (bytes.ts lines 7–16): allocates `2 * str.length` bytes and
writes, for the code unit `v` at logical index `i`, `v & 0xFF` at offset `2i`
and `v >> 8 & 0xFF` at offset `2i + 1`. -/
def strToLeUtf16 (str : List Nat) : List Nat :=
  (str.map fun v => [v % 0x100, v / 0x100 % 0x100]).flatten

/-- `leUtf16ToStr` (bytes.ts lines 23–29): `str += fromCharCode((bytes[i+1] << 8) + bytes[i])`
for `i = 0, 2, 4, …` while `i < bytes.length`.  On an odd-length buffer the
final iteration still runs: `bytes[i+1]` is an out-of-range read giving
`undefined`, and `undefined << 8` is `0`, so the trailing byte becomes a code
unit of its own value. -/
def leUtf16ToStr : List Nat → List Nat
  | [] => []
  | [b0] => [b0 % 0x10000]
  | b0 :: b1 :: rest => (b1 * 0x100 + b0) % 0x10000 :: leUtf16ToStr rest

/-- Structural helper for `stringFromCharCodes`: one 16000-entry chunk per
fuel unit (the fuel is always sufficient; see `stringFromCharCodes_eq`). -/
def sfccAux : Nat → List Nat → List Nat
  | _, [] => []
  | 0, _ :: _ => []
  | fuel + 1, a :: rest =>
    ((a :: rest).take 16000).map (fun ch => ch % 0x10000) ++
      sfccAux fuel ((a :: rest).drop 16000)

/-- `stringFromCharCodes` (bytes.ts lines 124–132): the buffer is processed in
`subarray` chunks of 16000 entries, each passed to `String.fromCharCode.apply`
(which reduces every argument modulo 2^16), and the pieces are concatenated. -/
def stringFromCharCodes (args : List Nat) : List Nat := sfccAux args.length args

/-- `strToUtf8` (bytes.ts lines 37–117): percent-encode with
`encodeURIComponent`, unescape the result — with the native `unescape` when
`typeof window.unescape === "function"`, with the self-contained fallback
otherwise — and keep `charCodeAt(i) & 0xFF` of every character. -/
def strToUtf8 (unescapeAvailable : Bool) (str : List Nat) : Option (List Nat) :=
  (encodeURIComponent str).map fun pcStr =>
    (if unescapeAvailable then nativeUnescape pcStr else unescapeFallback pcStr).map
      fun ch => ch % 0x100

/-- The BOM test of `utf8ToStr` (bytes.ts lines 166–169):
`uint8[0] === 0xEF && uint8[1] === 0xBB && uint8[2] === 0xBF`, with an
out-of-range read yielding `undefined` (which matches none of the bytes);
when it holds the first three bytes are dropped (`subarray(3)`). -/
def bomStrip (l : List Nat) : List Nat :=
  if l[0]? = some 0xEF ∧ l[1]? = some 0xBB ∧ l[2]? = some 0xBF then l.drop 3 else l

/-- `utf8ToStr` (bytes.ts lines 162–200): strip a leading BOM, turn the bytes
into a string with `stringFromCharCodes`, escape it, and percent-decode with
`decodeURIComponent`.  The availability branch is written
`if (typeof window.escape !== "function") { escaped = escape(utf8Str); } else { … fallback … }`:
when the native `escape` is *not* a function the code still calls it, which
throws (modelled as `none`); when it *is* available the self-contained
fallback runs. -/
def utf8ToStr (escapeAvailable : Bool) (data : List Nat) : Option (List Nat) :=
  if escapeAvailable = false then none
  else decodeURIComponent (escapeFallback (stringFromCharCodes (bomStrip data)))

/-! ## Fuel elimination for the two fuelled helpers -/

lemma natToHexDigitsAux_irrel : ∀ n f g, n ≤ f → n ≤ g →
    natToHexDigitsAux f n = natToHexDigitsAux g n := by
  intro n
  induction n using Nat.strong_induction_on with
  | _ n ih =>
    intro f g hf hg
    cases f with
    | zero =>
      cases g with
      | zero => rfl
      | succ g =>
        have hn : n = 0 := by omega
        subst hn
        simp [natToHexDigitsAux]
    | succ f =>
      cases g with
      | zero =>
        have hn : n = 0 := by omega
        subst hn
        simp [natToHexDigitsAux]
      | succ g =>
        by_cases h16 : n < 16
        · simp [natToHexDigitsAux, h16]
        · simp only [natToHexDigitsAux, h16, if_false]
          have hdiv : n / 16 < n := Nat.div_lt_self (by omega) (by omega)
          rw [ih (n / 16) hdiv f g (by omega) (by omega)]

/-- The defining recursion of `num.toString(16)`. -/
lemma natToHexDigits_eq (n : Nat) :
    natToHexDigits n =
      if n < 16 then [hexDigitLower n]
      else natToHexDigits (n / 16) ++ [hexDigitLower (n % 16)] := by
  unfold natToHexDigits
  cases n with
  | zero => simp [natToHexDigitsAux]
  | succ m =>
    by_cases h16 : m + 1 < 16
    · simp [natToHexDigitsAux, h16]
    · simp only [natToHexDigitsAux, h16, if_false]
      have hdiv : (m + 1) / 16 < m + 1 := Nat.div_lt_self (by omega) (by omega)
      rw [natToHexDigitsAux_irrel ((m + 1) / 16) m ((m + 1) / 16) (by omega) le_rfl]

lemma sfccAux_irrelAux : ∀ (n : Nat) (l : List Nat) f g, l.length ≤ n →
    l.length ≤ f → l.length ≤ g → sfccAux f l = sfccAux g l := by
  intro n
  induction n using Nat.strong_induction_on with
  | _ n ih =>
    intro l f g hn hf hg
    cases l with
    | nil => cases f <;> cases g <;> rfl
    | cons a rest =>
      cases f with
      | zero => simp at hf
      | succ f =>
        cases g with
        | zero => simp at hg
        | succ g =>
          simp only [sfccAux]
          have hdl : ((a :: rest).drop 16000).length = (a :: rest).length - 16000 :=
            List.length_drop 16000 (a :: rest)
          have hcons : (a :: rest).length = rest.length + 1 := List.length_cons a rest
          rw [ih ((a :: rest).drop 16000).length (by omega) _ f g le_rfl
            (by omega) (by omega)]

lemma sfccAux_irrel (l : List Nat) (f g : Nat) (hf : l.length ≤ f) (hg : l.length ≤ g) :
    sfccAux f l = sfccAux g l :=
  sfccAux_irrelAux l.length l f g le_rfl hf hg

/-- The defining chunk recursion of `stringFromCharCodes`. -/
lemma stringFromCharCodes_eq (a : Nat) (rest : List Nat) :
    stringFromCharCodes (a :: rest) =
      ((a :: rest).take 16000).map (fun ch => ch % 0x10000) ++
        stringFromCharCodes ((a :: rest).drop 16000) := by
  unfold stringFromCharCodes
  simp only [List.length_cons, sfccAux]
  rw [sfccAux_irrel ((a :: rest).drop 16000) rest.length ((a :: rest).drop 16000).length
    (by simp [List.length_drop]) le_rfl]

/-! ## Hexadecimal digit lemmas -/

lemma hexDigitVal_lower {n : Nat} (h : n < 16) : hexDigitVal (hexDigitLower n) = n := by
  unfold hexDigitVal hexDigitLower
  split_ifs <;> omega

lemma hexDigitVal_upper {n : Nat} (h : n < 16) : hexDigitVal (hexDigitUpper n) = n := by
  unfold hexDigitVal hexDigitUpper
  split_ifs <;> omega

lemma isHexDigit_lower {n : Nat} (h : n < 16) : IsHexDigit (hexDigitLower n) := by
  unfold IsHexDigit hexDigitLower
  split_ifs <;> omega

lemma isHexDigit_upper {n : Nat} (h : n < 16) : IsHexDigit (hexDigitUpper n) := by
  unfold IsHexDigit hexDigitUpper
  split_ifs <;> omega

lemma hexDigitUpper_ne_u {n : Nat} (h : n < 16) : hexDigitUpper n ≠ 0x75 := by
  unfold hexDigitUpper
  split_ifs <;> omega

lemma hexDigitLower_ne_u {n : Nat} (h : n < 16) : hexDigitLower n ≠ 0x75 := by
  unfold hexDigitLower
  split_ifs <;> omega

lemma hex2_upper {b : Nat} (h : b < 256) :
    hex2 (hexDigitUpper (b / 16)) (hexDigitUpper (b % 16)) = b := by
  unfold hex2
  rw [hexDigitVal_upper (by omega), hexDigitVal_upper (by omega)]
  omega

lemma hex2_lower {b : Nat} (h : b < 256) :
    hex2 (hexDigitLower (b / 16)) (hexDigitLower (b % 16)) = b := by
  unfold hex2
  rw [hexDigitVal_lower (by omega), hexDigitVal_lower (by omega)]
  omega

/-! ## `intToHex` lemmas -/

lemma natToHexDigits_lowerHex (n : Nat) : ∀ d ∈ natToHexDigits n, IsLowerHexDigit d := by
  induction n using Nat.strong_induction_on with
  | _ n ih =>
    rw [natToHexDigits_eq]
    by_cases h16 : n < 16
    · simp only [h16, if_true, List.mem_singleton]
      intro d hd
      subst hd
      unfold IsLowerHexDigit hexDigitLower
      split_ifs <;> omega
    · simp only [h16, if_false, List.mem_append, List.mem_singleton]
      intro d hd
      rcases hd with hd | hd
      · exact ih (n / 16) (Nat.div_lt_self (by omega) (by omega)) d hd
      · subst hd
        unfold IsLowerHexDigit hexDigitLower
        split_ifs <;> omega

lemma hexStrVal_append_digit (l : List Nat) (d : Nat) :
    hexStrVal (l ++ [d]) = hexStrVal l * 16 + hexDigitVal d := by
  simp [hexStrVal, List.foldl_append]

lemma natToHexDigits_val (n : Nat) : hexStrVal (natToHexDigits n) = n := by
  induction n using Nat.strong_induction_on with
  | _ n ih =>
    rw [natToHexDigits_eq]
    by_cases h16 : n < 16
    · simp only [h16, if_true]
      simp [hexStrVal, hexDigitVal_lower h16]
    · simp only [h16, if_false]
      rw [hexStrVal_append_digit, ih (n / 16) (Nat.div_lt_self (by omega) (by omega)),
        hexDigitVal_lower (by omega)]
      omega

lemma hexStrVal_replicate_zero (k : Nat) (l : List Nat) :
    hexStrVal (List.replicate k 0x30 ++ l) = hexStrVal l := by
  induction k with
  | zero => simp
  | succ k ih =>
    rw [List.replicate_succ, List.cons_append]
    show hexStrVal (List.replicate k 0x30 ++ l) = hexStrVal l
    exact ih

lemma intToHex_eq (num size : Nat) :
    intToHex num size =
      List.replicate (size - (natToHexDigits num).length) 0x30 ++ natToHexDigits num := by
  simp only [intToHex]
  split_ifs with h
  · have : size - (natToHexDigits num).length = 0 := by omega
    simp [this]
  · rfl

lemma natToHexDigits_two {b : Nat} (h : b < 256) :
    intToHex b 2 = [hexDigitLower (b / 16), hexDigitLower (b % 16)] := by
  by_cases h16 : b < 16
  · have hd : natToHexDigits b = [hexDigitLower b] := by
      rw [natToHexDigits_eq]; simp [h16]
    rw [intToHex_eq, hd]
    have h0 : b / 16 = 0 := by omega
    have hm : b % 16 = b := by omega
    simp [h0, hm]
    rfl
  · have hd : natToHexDigits b = [hexDigitLower (b / 16), hexDigitLower (b % 16)] := by
      rw [natToHexDigits_eq]
      simp only [h16, if_false]
      rw [natToHexDigits_eq]
      simp [show b / 16 < 16 by omega]
    rw [intToHex_eq, hd]
    simp

/-! ## `stringFromCharCodes` lemmas -/

lemma stringFromCharCodes_mapAux : ∀ (n : Nat) (l : List Nat), l.length ≤ n →
    stringFromCharCodes l = l.map fun ch => ch % 0x10000 := by
  intro n
  induction n using Nat.strong_induction_on with
  | _ n ih =>
    intro l hn
    cases l with
    | nil => rfl
    | cons a rest =>
      rw [stringFromCharCodes_eq]
      have hdl : ((a :: rest).drop 16000).length = (a :: rest).length - 16000 :=
        List.length_drop 16000 (a :: rest)
      have hcons : (a :: rest).length = rest.length + 1 := List.length_cons a rest
      rw [ih ((a :: rest).drop 16000).length (by omega) _ le_rfl,
        ← List.map_append, List.take_append_drop]

lemma stringFromCharCodes_map (l : List Nat) :
    stringFromCharCodes l = l.map fun ch => ch % 0x10000 :=
  stringFromCharCodes_mapAux l.length l le_rfl

lemma map_mod_eq_self {m : Nat} (l : List Nat) (h : ∀ b ∈ l, b < m) :
    (l.map fun ch => ch % m) = l := by
  induction l with
  | nil => rfl
  | cons a rest ih =>
    simp only [List.map_cons]
    rw [Nat.mod_eq_of_lt (h a (by simp)), ih fun b hb => h b (by simp [hb])]

lemma stringFromCharCodes_bytes (l : List Nat) (h : ∀ b ∈ l, b < 0x10000) :
    stringFromCharCodes l = l := by
  rw [stringFromCharCodes_map, map_mod_eq_self l h]

/-! ## `leUtf16ToStr` and `strToLeUtf16` lemmas -/

lemma leUtf16ToStr_length (bytes : List Nat) :
    (leUtf16ToStr bytes).length = (bytes.length + 1) / 2 := by
  induction bytes using leUtf16ToStr.induct with
  | case1 => rfl
  | case2 b0 => simp [leUtf16ToStr]
  | case3 b0 b1 rest ih =>
    simp only [leUtf16ToStr, List.length_cons, ih]
    omega

lemma leUtf16ToStr_append_pair (b0 b1 : Nat) :
    ∀ ys : List Nat, ys.length % 2 = 0 →
      leUtf16ToStr (ys ++ [b0, b1]) = leUtf16ToStr ys ++ [(b1 * 0x100 + b0) % 0x10000] := by
  intro ys
  induction ys using leUtf16ToStr.induct with
  | case1 => intro _; rfl
  | case2 y0 => intro h; simp at h
  | case3 y0 y1 rest ih =>
    intro h
    simp only [List.length_cons] at h
    simp only [List.cons_append, leUtf16ToStr, List.cons_append]
    rw [show List.append rest [b0, b1] = rest ++ [b0, b1] from rfl, ih (by omega)]

lemma leUtf16ToStr_append_single (b : Nat) :
    ∀ ys : List Nat, ys.length % 2 = 0 →
      leUtf16ToStr (ys ++ [b]) = leUtf16ToStr ys ++ [b % 0x10000] := by
  intro ys
  induction ys using leUtf16ToStr.induct with
  | case1 => intro _; rfl
  | case2 y0 => intro h; simp at h
  | case3 y0 y1 rest ih =>
    intro h
    simp only [List.length_cons] at h
    simp only [List.cons_append, leUtf16ToStr, List.cons_append]
    rw [show List.append rest [b] = rest ++ [b] from rfl, ih (by omega)]

lemma strToLeUtf16_cons (v : Nat) (s : List Nat) :
    strToLeUtf16 (v :: s) = v % 0x100 :: v / 0x100 % 0x100 :: strToLeUtf16 s := by
  simp [strToLeUtf16]

lemma strToLeUtf16_length (s : List Nat) : (strToLeUtf16 s).length = 2 * s.length := by
  induction s with
  | nil => rfl
  | cons v s ih =>
    rw [strToLeUtf16_cons]
    simp only [List.length_cons, ih]
    omega

lemma leUtf16_roundtrip (s : List Nat) (h : ∀ v ∈ s, v < 0x10000) :
    leUtf16ToStr (strToLeUtf16 s) = s := by
  induction s with
  | nil => rfl
  | cons v s ih =>
    rw [strToLeUtf16_cons]
    show (v / 0x100 % 0x100 * 0x100 + v % 0x100) % 0x10000 :: leUtf16ToStr (strToLeUtf16 s)
      = v :: s
    rw [ih fun w hw => h w (by simp [hw])]
    have hv : v < 0x10000 := h v (by simp)
    congr 1
    omega

lemma leUtf16_roundtrip2 : ∀ bytes : List Nat, (∀ b ∈ bytes, b < 0x100) →
    bytes.length % 2 = 0 → strToLeUtf16 (leUtf16ToStr bytes) = bytes := by
  intro bytes
  induction bytes using leUtf16ToStr.induct with
  | case1 => intro _ _; rfl
  | case2 b0 => intro _ h; simp at h
  | case3 b0 b1 rest ih =>
    intro hb h
    simp only [List.length_cons] at h
    have hb0 : b0 < 0x100 := hb b0 (by simp)
    have hb1 : b1 < 0x100 := hb b1 (by simp)
    simp only [leUtf16ToStr]
    rw [strToLeUtf16_cons, ih (fun b hbm => hb b (by simp [hbm])) (by omega)]
    have hlt : b1 * 0x100 + b0 < 0x10000 := by omega
    rw [Nat.mod_eq_of_lt hlt]
    congr 2
    · omega
    · omega

lemma strToLeUtf16_get? (s : List Nat) : ∀ i : Nat,
    (strToLeUtf16 s)[2 * i]? = (s[i]?).map (fun v => v % 0x100) ∧
    (strToLeUtf16 s)[2 * i + 1]? = (s[i]?).map (fun v => v / 0x100 % 0x100) := by
  induction s with
  | nil =>
    intro i
    constructor <;> simp [strToLeUtf16]
  | cons v s ih =>
    intro i
    cases i with
    | zero =>
      rw [strToLeUtf16_cons]
      constructor <;> simp
    | succ i =>
      rw [strToLeUtf16_cons]
      have e1 : 2 * (i + 1) = 2 * i + 1 + 1 := by omega
      rw [e1]
      simp only [List.getElem?_cons_succ]
      exact ih i

/-! ## Claim C2 -/

/-- **C2** — counterexample to the claim as stated.  On the odd-length buffer
`[0x41, 0x00, 0x42]` the code returns the two code units `[0x41, 0x42]`,
which is not the decoding `[0x41]` of the buffer with its last byte removed,
and has `⌈3/2⌉ = 2` code units rather than `⌊3/2⌋ = 1`. -/
theorem claim_C2_counterexample :
    leUtf16ToStr [0x41, 0x00, 0x42] = [0x41, 0x42] ∧
    leUtf16ToStr [0x41, 0x00] = [0x41] ∧
    ([0x41, 0x42] : List Nat) ≠ [0x41] := by
  decide

/-- **C2** (amended).  The pairwise loop of `leUtf16ToStr` does not drop the
trailing byte of an odd-length buffer: the final iteration still runs, reads
the out-of-range high byte as 0, and turns the trailing byte into a code unit
of its own value.  The output has `⌈length/2⌉` code units, and an odd-length
buffer decodes exactly like the buffer with a `0x00` byte appended. -/
theorem claim_C2_odd_tail :
    (∀ bytes : List Nat, (leUtf16ToStr bytes).length = (bytes.length + 1) / 2) ∧
    (∀ (ys : List Nat) (b : Nat), ys.length % 2 = 0 →
      leUtf16ToStr (ys ++ [b]) = leUtf16ToStr ys ++ [b % 0x10000]) ∧
    (∀ bytes : List Nat, bytes.length % 2 = 1 →
      leUtf16ToStr bytes = leUtf16ToStr (bytes ++ [0])) := by
  refine ⟨leUtf16ToStr_length, fun ys b h => leUtf16ToStr_append_single b ys h, ?_⟩
  intro bytes h
  have hne : bytes ≠ [] := by
    intro he
    subst he
    simp at h
  obtain ⟨ys, b, hb⟩ : ∃ ys b, bytes = ys ++ [b] :=
    ⟨bytes.dropLast, bytes.getLast hne, (List.dropLast_append_getLast hne).symm⟩
  subst hb
  have hys : ys.length % 2 = 0 := by
    simp [List.length_append] at h
    omega
  rw [leUtf16ToStr_append_single b ys hys, List.append_assoc]
  have : ([b] ++ [0] : List Nat) = [b, 0] := rfl
  rw [this, leUtf16ToStr_append_pair b 0 ys hys]
  simp

/-- **C2** witness: the amended statement evaluated on `[0x41, 0x00] ++ [0x42]`. -/
theorem claim_C2_odd_tail_witness :
    leUtf16ToStr ([0x41, 0x00] ++ [0x42]) = leUtf16ToStr [0x41, 0x00] ++ [0x42 % 0x10000] ∧
    leUtf16ToStr [0x41, 0x00, 0x42] = leUtf16ToStr [0x41, 0x00, 0x42, 0] :=
  ⟨claim_C2_odd_tail.2.1 [0x41, 0x00] 0x42 (by decide),
   claim_C2_odd_tail.2.2 [0x41, 0x00, 0x42] (by decide)⟩

/-! ## Claim C4 -/

/-- **C4** (confirmed).  `strToLeUtf16` and `leUtf16ToStr` are total pure
functions, and they are mutually inverse: decoding after encoding is the
identity on every string whose code units fit in 16 bits, and encoding after
decoding is the identity on every even-length byte buffer. -/
theorem claim_C4_roundtrip :
    (∀ s : List Nat, (∀ v ∈ s, v < 0x10000) → leUtf16ToStr (strToLeUtf16 s) = s) ∧
    (∀ bytes : List Nat, (∀ b ∈ bytes, b < 0x100) → bytes.length % 2 = 0 →
      strToLeUtf16 (leUtf16ToStr bytes) = bytes) :=
  ⟨leUtf16_roundtrip, leUtf16_roundtrip2⟩

/-- **C4** witness: both round-trip directions on concrete data (including a
lone surrogate code unit, which UTF-16LE transport preserves). -/
theorem claim_C4_roundtrip_witness :
    leUtf16ToStr (strToLeUtf16 [0x41, 0xD801, 0xFFFF]) = [0x41, 0xD801, 0xFFFF] ∧
    strToLeUtf16 (leUtf16ToStr [0x12, 0x34]) = [0x12, 0x34] :=
  ⟨claim_C4_roundtrip.1 _ (by decide), claim_C4_roundtrip.2 _ (by decide) (by decide)⟩

/-! ## Claim C5 -/

/-- **C5** (confirmed).  `strToLeUtf16` returns a buffer of length exactly
`2 * codeUnitCount(text)`; the code unit `v` at logical index `i` is written
as `v & 0xFF` at byte offset `2i` and `(v >> 8) & 0xFF` at byte offset
`2i + 1`; and `strToLeUtf16 "A"` is `[0x41, 0x00]`. -/
theorem claim_C5_layout :
    (∀ s : List Nat, (strToLeUtf16 s).length = 2 * s.length) ∧
    (∀ (s : List Nat) (i : Nat),
      (strToLeUtf16 s)[2 * i]? = (s[i]?).map (fun v => v % 0x100) ∧
      (strToLeUtf16 s)[2 * i + 1]? = (s[i]?).map (fun v => v / 0x100 % 0x100)) ∧
    strToLeUtf16 [0x41] = [0x41, 0x00] :=
  ⟨strToLeUtf16_length, strToLeUtf16_get?, by decide⟩

/-! ## Claim C8 -/

/-- **C8** (confirmed).  `intToHex` renders its argument in lowercase
hexadecimal (the digits are lowercase hex digits and evaluate back to the
argument), left-pads with `0x30` to at least `size` digits, returns the
natural representation unpadded (never truncated) whenever it already has at
least `size` digits, and satisfies the five concrete examples. -/
theorem claim_C8_intToHex :
    (∀ num size, intToHex num size =
        List.replicate (size - (natToHexDigits num).length) 0x30 ++ natToHexDigits num) ∧
    (∀ num size, size ≤ (natToHexDigits num).length → intToHex num size = natToHexDigits num) ∧
    (∀ num size, (intToHex num size).length = max size (natToHexDigits num).length) ∧
    (∀ num size, hexStrVal (intToHex num size) = num) ∧
    (∀ num size, ∀ d ∈ intToHex num size, IsLowerHexDigit d) ∧
    intToHex 5 4 = [0x30, 0x30, 0x30, 0x35] ∧
    intToHex 5 2 = [0x30, 0x35] ∧
    intToHex 10 1 = [0x61] ∧
    intToHex 268 3 = [0x31, 0x30, 0x63] ∧
    intToHex 123456 4 = [0x31, 0x65, 0x32, 0x34, 0x30] := by
  refine ⟨intToHex_eq, ?_, ?_, ?_, ?_, by decide, by decide, by decide, by decide, by decide⟩
  · intro num size h
    simp only [intToHex]
    rw [if_pos h]
  · intro num size
    rw [intToHex_eq]
    simp only [List.length_append, List.length_replicate]
    omega
  · intro num size
    rw [intToHex_eq, hexStrVal_replicate_zero, natToHexDigits_val]
  · intro num size d hd
    rw [intToHex_eq] at hd
    rcases List.mem_append.mp hd with hd | hd
    · have : d = 0x30 := List.eq_of_mem_replicate hd
      subst this
      decide
    · exact natToHexDigits_lowerHex num d hd

/-- **C8** witness: the hypothesis-bearing parts evaluated concretely — the
natural five-digit representation of 123456 is returned unpadded for
`size = 4`, and a digit of `intToHex 10 1` is a lowercase hex digit. -/
theorem claim_C8_intToHex_witness :
    intToHex 123456 4 = natToHexDigits 123456 ∧ IsLowerHexDigit 0x61 :=
  ⟨claim_C8_intToHex.2.1 123456 4 (by decide),
   claim_C8_intToHex.2.2.2.2.1 10 1 0x61 (by decide)⟩

/-! ## Claim C9 -/

/-- **C9** (confirmed).  The 16000-entry chunking loop of
`stringFromCharCodes` produces exactly the single-pass result — every entry
mapped to one code unit (`String.fromCharCode` reduces modulo 2^16) — for
every buffer length, and it is the identity on byte buffers; empty input
yields empty text. -/
theorem claim_C9_chunking :
    (∀ args : List Nat, stringFromCharCodes args = args.map fun ch => ch % 0x10000) ∧
    (∀ args : List Nat, (∀ b ∈ args, b < 0x100) → stringFromCharCodes args = args) ∧
    stringFromCharCodes [] = [] :=
  ⟨stringFromCharCodes_map,
   fun args h => stringFromCharCodes_bytes args fun b hb => by
     have := h b hb
     omega,
   rfl⟩

/-- **C9** witness: the byte-buffer identity instantiated concretely. -/
theorem claim_C9_chunking_witness :
    stringFromCharCodes [0xEF, 0xBB, 0xBF] = [0xEF, 0xBB, 0xBF] :=
  claim_C9_chunking.2.1 _ (by decide)

/-! ## Character class facts -/

lemma uriUnreserved_lt {c : Nat} (h : IsUriUnreserved c) : c < 0x80 := by
  unfold IsUriUnreserved at h
  omega

lemma uriUnreserved_ne_percent {c : Nat} (h : IsUriUnreserved c) : c ≠ 0x25 := by
  unfold IsUriUnreserved at h
  omega

lemma nonEscaped_lt {c : Nat} (h : IsNonEscapedChar c) : c < 0x80 := by
  unfold IsNonEscapedChar at h
  omega

lemma nonEscaped_ne_percent {c : Nat} (h : IsNonEscapedChar c) : c ≠ 0x25 := by
  unfold IsNonEscapedChar at h
  omega

lemma utf8EncodeChar_lt (c : Nat) (h : c < 0x110000) : ∀ b ∈ utf8EncodeChar c, b < 0x100 := by
  unfold utf8EncodeChar
  split_ifs with h1 h2 h3 <;> intro b hb <;> simp at hb <;> omega

lemma utf8Encode_lt (t : List Nat) (hv : ValidText t) : ∀ b ∈ utf8Encode t, b < 0x100 := by
  intro b hb
  unfold utf8Encode at hb
  rw [List.mem_flatten] at hb
  obtain ⟨l, hl, hbl⟩ := hb
  rw [List.mem_map] at hl
  obtain ⟨c, hct, hcl⟩ := hl
  subst hcl
  exact utf8EncodeChar_lt c (hv c hct).1 b hbl

/-! ## `encodeURIComponent` on well-formed UTF-16 -/

lemma encodeURIComponent_cons (c : Nat) (rest : List Nat) :
    encodeURIComponent (c :: rest) =
      if IsUriUnreserved c then
        (encodeURIComponent rest).map fun r => c :: r
      else if c < 0xD800 ∨ 0xE000 ≤ c then
        (encodeURIComponent rest).map fun r => ((utf8EncodeChar c).map percentByte).flatten ++ r
      else if c < 0xDC00 then
        match rest with
        | c2 :: rest2 =>
          if 0xDC00 ≤ c2 ∧ c2 < 0xE000 then
            (encodeURIComponent rest2).map fun r =>
              ((utf8EncodeChar (0x10000 + (c - 0xD800) * 0x400 + (c2 - 0xDC00))).map
                percentByte).flatten ++ r
          else none
        | [] => none
      else none := by
  rw [encodeURIComponent.eq_def]

lemma encodeURIComponent_utf16 : ∀ t : List Nat, ValidText t →
    encodeURIComponent (utf16Encode t) = some ((t.map pcChar).flatten) := by
  intro t
  induction t with
  | nil => intro _; rfl
  | cons c t ih =>
    intro hv
    have hc : ValidScalar c := hv c (by simp)
    have ht : ValidText t := fun d hd => hv d (by simp [hd])
    have hrec := ih ht
    by_cases hbig : c < 0x10000
    · have he : utf16Encode (c :: t) = c :: utf16Encode t := by
        simp [utf16Encode, utf16EncodeChar, hbig]
      rw [he]
      by_cases hu : IsUriUnreserved c
      · rw [encodeURIComponent_cons, if_pos hu, hrec]
        simp [pcChar, hu]
      · rw [encodeURIComponent_cons, if_neg hu, if_pos hc.2, hrec]
        simp [pcChar, hu]
    · have he : utf16Encode (c :: t) =
          (0xD800 + (c - 0x10000) / 0x400) :: (0xDC00 + (c - 0x10000) % 0x400) ::
            utf16Encode t := by
        simp [utf16Encode, utf16EncodeChar, hbig]
      rw [he]
      have hq : (c - 0x10000) / 0x400 < 0x400 := by
        have := hc.1
        omega
      have hu1 : ¬ IsUriUnreserved (0xD800 + (c - 0x10000) / 0x400) := by
        unfold IsUriUnreserved
        omega
      have hs1 : ¬ ((0xD800 + (c - 0x10000) / 0x400) < 0xD800 ∨
          0xE000 ≤ (0xD800 + (c - 0x10000) / 0x400)) := by
        omega
      have hs2 : (0xD800 + (c - 0x10000) / 0x400) < 0xDC00 := by
        omega
      have hpair : 0xDC00 ≤ (0xDC00 + (c - 0x10000) % 0x400) ∧
          (0xDC00 + (c - 0x10000) % 0x400) < 0xE000 := by
        omega
      have hcomb : 0x10000 + ((0xD800 + (c - 0x10000) / 0x400) - 0xD800) * 0x400 +
          ((0xDC00 + (c - 0x10000) % 0x400) - 0xDC00) = c := by
        have := hc.1
        omega
      rw [encodeURIComponent_cons, if_neg hu1, if_neg hs1, if_pos hs2]
      simp only [if_pos hpair, hcomb, hrec]
      have hu2 : ¬ IsUriUnreserved c := by
        unfold IsUriUnreserved
        omega
      simp [pcChar, hu2]

/-! ## The two `unescape` variants on percent-encoded text -/

lemma nativeUnescape_cons {c : Nat} (hc : c ≠ 0x25) (s : List Nat) :
    nativeUnescape (c :: s) = c :: nativeUnescape s := by
  rcases s with _ | ⟨a, _ | ⟨b, _ | ⟨d, _ | ⟨e, _ | ⟨f, r⟩⟩⟩⟩⟩ <;>
    simp [nativeUnescape, hc]

lemma nativeUnescape_esc {h1 h2 : Nat} (hh1 : IsHexDigit h1) (hh2 : IsHexDigit h2)
    (hu : h1 ≠ 0x75) (s : List Nat) :
    nativeUnescape (0x25 :: h1 :: h2 :: s) = hex2 h1 h2 :: nativeUnescape s := by
  rcases s with _ | ⟨a, _ | ⟨b, _ | ⟨d, r⟩⟩⟩ <;>
    simp [nativeUnescape, hh1, hh2, hu]

lemma unescapeFallback_cons {c : Nat} (hc : c ≠ 0x25) (s : List Nat) :
    unescapeFallback (c :: s) = c :: unescapeFallback s := by
  rcases s with _ | ⟨a, _ | ⟨b, _ | ⟨d, _ | ⟨e, _ | ⟨f, r⟩⟩⟩⟩⟩ <;>
    simp [unescapeFallback, hc]

lemma unescapeFallback_esc {h1 h2 : Nat} (hh1 : IsHexDigit h1) (hh2 : IsHexDigit h2)
    (hu : h1 ≠ 0x75) (s : List Nat) :
    unescapeFallback (0x25 :: h1 :: h2 :: s) = hex2 h1 h2 :: unescapeFallback s := by
  rcases s with _ | ⟨a, _ | ⟨b, _ | ⟨d, r⟩⟩⟩ <;>
    simp [unescapeFallback, hh1, hh2, hu]

lemma nativeUnescape_percent : ∀ (bs : List Nat), (∀ b ∈ bs, b < 0x100) → ∀ s : List Nat,
    nativeUnescape ((bs.map percentByte).flatten ++ s) = bs ++ nativeUnescape s := by
  intro bs
  induction bs with
  | nil => intro _ s; simp
  | cons b bs ih =>
    intro h s
    have hb : b < 0x100 := h b (by simp)
    simp only [List.map_cons, List.flatten_cons, List.append_assoc, percentByte,
      List.cons_append, List.nil_append]
    rw [nativeUnescape_esc (isHexDigit_upper (by omega)) (isHexDigit_upper (by omega))
      (hexDigitUpper_ne_u (by omega)), hex2_upper hb,
      ih (fun x hx => h x (by simp [hx])) s]

lemma unescapeFallback_percent : ∀ (bs : List Nat), (∀ b ∈ bs, b < 0x100) → ∀ s : List Nat,
    unescapeFallback ((bs.map percentByte).flatten ++ s) = bs ++ unescapeFallback s := by
  intro bs
  induction bs with
  | nil => intro _ s; simp
  | cons b bs ih =>
    intro h s
    have hb : b < 0x100 := h b (by simp)
    simp only [List.map_cons, List.flatten_cons, List.append_assoc, percentByte,
      List.cons_append, List.nil_append]
    rw [unescapeFallback_esc (isHexDigit_upper (by omega)) (isHexDigit_upper (by omega))
      (hexDigitUpper_ne_u (by omega)), hex2_upper hb,
      ih (fun x hx => h x (by simp [hx])) s]

lemma nativeUnescape_pc : ∀ t : List Nat, ValidText t →
    nativeUnescape ((t.map pcChar).flatten) = utf8Encode t := by
  intro t
  induction t with
  | nil => intro _; rfl
  | cons c t ih =>
    intro hv
    have hc : ValidScalar c := hv c (by simp)
    have ht : ValidText t := fun d hd => hv d (by simp [hd])
    simp only [List.map_cons, List.flatten_cons]
    by_cases hu : IsUriUnreserved c
    · have h80 : c < 0x80 := uriUnreserved_lt hu
      simp only [pcChar, if_pos hu, List.singleton_append]
      rw [nativeUnescape_cons (uriUnreserved_ne_percent hu), ih ht]
      simp [utf8Encode, utf8EncodeChar, h80]
    · simp only [pcChar, if_neg hu]
      rw [nativeUnescape_percent (utf8EncodeChar c) (utf8EncodeChar_lt c hc.1) _, ih ht]
      simp [utf8Encode]

lemma unescapeFallback_pc : ∀ t : List Nat, ValidText t →
    unescapeFallback ((t.map pcChar).flatten) = utf8Encode t := by
  intro t
  induction t with
  | nil => intro _; rfl
  | cons c t ih =>
    intro hv
    have hc : ValidScalar c := hv c (by simp)
    have ht : ValidText t := fun d hd => hv d (by simp [hd])
    simp only [List.map_cons, List.flatten_cons]
    by_cases hu : IsUriUnreserved c
    · have h80 : c < 0x80 := uriUnreserved_lt hu
      simp only [pcChar, if_pos hu, List.singleton_append]
      rw [unescapeFallback_cons (uriUnreserved_ne_percent hu), ih ht]
      simp [utf8Encode, utf8EncodeChar, h80]
    · simp only [pcChar, if_neg hu]
      rw [unescapeFallback_percent (utf8EncodeChar c) (utf8EncodeChar_lt c hc.1) _, ih ht]
      simp [utf8Encode]

/-- `strToUtf8` is exactly UTF-8 encoding on every text, on both availability
paths. -/
lemma strToUtf8_text (ua : Bool) (t : List Nat) (hv : ValidText t) :
    strToUtf8 ua (utf16Encode t) = some (utf8Encode t) := by
  unfold strToUtf8
  rw [encodeURIComponent_utf16 t hv]
  cases ua
  · show Option.map _ (some ((t.map pcChar).flatten)) = _
    rw [Option.map_some']
    simp only [Bool.false_eq_true, if_false, unescapeFallback_pc t hv]
    rw [map_mod_eq_self _ (utf8Encode_lt t hv)]
  · show Option.map _ (some ((t.map pcChar).flatten)) = _
    rw [Option.map_some']
    simp only [if_true, nativeUnescape_pc t hv]
    rw [map_mod_eq_self _ (utf8Encode_lt t hv)]

/-! ## `decodeURIComponent` on escaped UTF-8 -/

lemma decodeURIComponent_lit {c : Nat} (hne : c ≠ 0x25) (s : List Nat) :
    decodeURIComponent (c :: s) = (decodeURIComponent s).map fun r => c :: r := by
  rcases s with _ | ⟨a1, _ | ⟨a2, _ | ⟨a3, _ | ⟨a4, _ | ⟨a5, s6⟩⟩⟩⟩⟩
  all_goals try rcases s6 with _ | ⟨a6, _ | ⟨a7, _ | ⟨a8, _ | ⟨a9, _ | ⟨a10, _ | ⟨a11, r⟩⟩⟩⟩⟩⟩
  all_goals (conv_lhs => rw [decodeURIComponent.eq_def])
  all_goals simp [hne]

lemma decodeURIComponent_esc1 {d1 d2 : Nat} (h1 : IsHexDigit d1) (h2 : IsHexDigit d2)
    (hb : hex2 d1 d2 < 0x80) (s : List Nat) :
    decodeURIComponent (0x25 :: d1 :: d2 :: s) =
      (decodeURIComponent s).map fun r => hex2 d1 d2 :: r := by
  rcases s with _ | ⟨a1, _ | ⟨a2, _ | ⟨a3, _ | ⟨a4, s5⟩⟩⟩⟩
  all_goals try rcases s5 with _ | ⟨a5, _ | ⟨a6, _ | ⟨a7, _ | ⟨a8, _ | ⟨a9, r⟩⟩⟩⟩⟩
  all_goals (conv_lhs => rw [decodeURIComponent.eq_def])
  all_goals simp [h1, h2, hb]

lemma decodeURIComponent_esc2 (b0 b1 v : Nat) (h0 : b0 < 0x100) (h1 : b1 < 0x100)
    (hr0 : 0xC0 ≤ b0) (hr1 : b0 < 0xE0) (hc : ContOk b1)
    (hval : utf8Val2 b0 b1 = v) (henc : utf8EncodeChar v = [b0, b1]) (hvs : ValidScalar v)
    (s : List Nat) :
    decodeURIComponent (0x25 :: hexDigitLower (b0 / 16) :: hexDigitLower (b0 % 16) ::
        0x25 :: hexDigitLower (b1 / 16) :: hexDigitLower (b1 % 16) :: s) =
      (decodeURIComponent s).map fun r => utf16EncodeChar v ++ r := by
  have hd1 : IsHexDigit (hexDigitLower (b0 / 16)) := isHexDigit_lower (by omega)
  have hd2 : IsHexDigit (hexDigitLower (b0 % 16)) := isHexDigit_lower (by omega)
  have hd3 : IsHexDigit (hexDigitLower (b1 / 16)) := isHexDigit_lower (by omega)
  have hd4 : IsHexDigit (hexDigitLower (b1 % 16)) := isHexDigit_lower (by omega)
  have hx0 : hex2 (hexDigitLower (b0 / 16)) (hexDigitLower (b0 % 16)) = b0 := hex2_lower h0
  have hx1 : hex2 (hexDigitLower (b1 / 16)) (hexDigitLower (b1 % 16)) = b1 := hex2_lower h1
  rcases s with _ | ⟨a1, _ | ⟨a2, _ | ⟨a3, _ | ⟨a4, _ | ⟨a5, _ | ⟨a6, r⟩⟩⟩⟩⟩⟩
  all_goals (conv_lhs => rw [decodeURIComponent.eq_def])
  all_goals simp [hd1, hd2, hd3, hd4, hx0, hx1, hval, show ¬ b0 < 0x80 by omega,
    show ¬ b0 < 0xC0 by omega, hr1, hc, henc, hvs]

lemma decodeURIComponent_esc3 (b0 b1 b2 v : Nat) (h0 : b0 < 0x100) (h1 : b1 < 0x100)
    (h2 : b2 < 0x100) (hr0 : 0xE0 ≤ b0) (hr1 : b0 < 0xF0) (hc1 : ContOk b1) (hc2 : ContOk b2)
    (hval : utf8Val3 b0 b1 b2 = v) (henc : utf8EncodeChar v = [b0, b1, b2])
    (hvs : ValidScalar v) (s : List Nat) :
    decodeURIComponent (0x25 :: hexDigitLower (b0 / 16) :: hexDigitLower (b0 % 16) ::
        0x25 :: hexDigitLower (b1 / 16) :: hexDigitLower (b1 % 16) ::
        0x25 :: hexDigitLower (b2 / 16) :: hexDigitLower (b2 % 16) :: s) =
      (decodeURIComponent s).map fun r => utf16EncodeChar v ++ r := by
  have hd1 : IsHexDigit (hexDigitLower (b0 / 16)) := isHexDigit_lower (by omega)
  have hd2 : IsHexDigit (hexDigitLower (b0 % 16)) := isHexDigit_lower (by omega)
  have hd3 : IsHexDigit (hexDigitLower (b1 / 16)) := isHexDigit_lower (by omega)
  have hd4 : IsHexDigit (hexDigitLower (b1 % 16)) := isHexDigit_lower (by omega)
  have hd5 : IsHexDigit (hexDigitLower (b2 / 16)) := isHexDigit_lower (by omega)
  have hd6 : IsHexDigit (hexDigitLower (b2 % 16)) := isHexDigit_lower (by omega)
  have hx0 : hex2 (hexDigitLower (b0 / 16)) (hexDigitLower (b0 % 16)) = b0 := hex2_lower h0
  have hx1 : hex2 (hexDigitLower (b1 / 16)) (hexDigitLower (b1 % 16)) = b1 := hex2_lower h1
  have hx2 : hex2 (hexDigitLower (b2 / 16)) (hexDigitLower (b2 % 16)) = b2 := hex2_lower h2
  rcases s with _ | ⟨a1, _ | ⟨a2, _ | ⟨a3, r⟩⟩⟩
  all_goals (conv_lhs => rw [decodeURIComponent.eq_def])
  all_goals simp [hd1, hd2, hd3, hd4, hd5, hd6, hx0, hx1, hx2, hval,
    show ¬ b0 < 0x80 by omega, show ¬ b0 < 0xC0 by omega, show ¬ b0 < 0xE0 by omega,
    hr1, hc1, hc2, henc, hvs]

lemma decodeURIComponent_esc4 (b0 b1 b2 b3 v : Nat) (h0 : b0 < 0x100) (h1 : b1 < 0x100)
    (h2 : b2 < 0x100) (h3 : b3 < 0x100) (hr0 : 0xF0 ≤ b0) (hr1 : b0 < 0xF8)
    (hc1 : ContOk b1) (hc2 : ContOk b2) (hc3 : ContOk b3)
    (hval : utf8Val4 b0 b1 b2 b3 = v) (henc : utf8EncodeChar v = [b0, b1, b2, b3])
    (hvs : ValidScalar v) (s : List Nat) :
    decodeURIComponent (0x25 :: hexDigitLower (b0 / 16) :: hexDigitLower (b0 % 16) ::
        0x25 :: hexDigitLower (b1 / 16) :: hexDigitLower (b1 % 16) ::
        0x25 :: hexDigitLower (b2 / 16) :: hexDigitLower (b2 % 16) ::
        0x25 :: hexDigitLower (b3 / 16) :: hexDigitLower (b3 % 16) :: s) =
      (decodeURIComponent s).map fun r => utf16EncodeChar v ++ r := by
  have hd1 : IsHexDigit (hexDigitLower (b0 / 16)) := isHexDigit_lower (by omega)
  have hd2 : IsHexDigit (hexDigitLower (b0 % 16)) := isHexDigit_lower (by omega)
  have hd3 : IsHexDigit (hexDigitLower (b1 / 16)) := isHexDigit_lower (by omega)
  have hd4 : IsHexDigit (hexDigitLower (b1 % 16)) := isHexDigit_lower (by omega)
  have hd5 : IsHexDigit (hexDigitLower (b2 / 16)) := isHexDigit_lower (by omega)
  have hd6 : IsHexDigit (hexDigitLower (b2 % 16)) := isHexDigit_lower (by omega)
  have hd7 : IsHexDigit (hexDigitLower (b3 / 16)) := isHexDigit_lower (by omega)
  have hd8 : IsHexDigit (hexDigitLower (b3 % 16)) := isHexDigit_lower (by omega)
  have hx0 : hex2 (hexDigitLower (b0 / 16)) (hexDigitLower (b0 % 16)) = b0 := hex2_lower h0
  have hx1 : hex2 (hexDigitLower (b1 / 16)) (hexDigitLower (b1 % 16)) = b1 := hex2_lower h1
  have hx2 : hex2 (hexDigitLower (b2 / 16)) (hexDigitLower (b2 % 16)) = b2 := hex2_lower h2
  have hx3 : hex2 (hexDigitLower (b3 / 16)) (hexDigitLower (b3 % 16)) = b3 := hex2_lower h3
  conv_lhs => rw [decodeURIComponent.eq_def]
  simp [hd1, hd2, hd3, hd4, hd5, hd6, hd7, hd8, hx0, hx1, hx2, hx3, hval,
    show ¬ b0 < 0x80 by omega, show ¬ b0 < 0xC0 by omega, show ¬ b0 < 0xE0 by omega,
    show ¬ b0 < 0xF0 by omega, hr1, hc1, hc2, hc3, henc, hvs]

lemma escapeFallback_append (l1 l2 : List Nat) :
    escapeFallback (l1 ++ l2) = escapeFallback l1 ++ escapeFallback l2 := by
  simp [escapeFallback]

/-- Decoding the escaped form of one UTF-8-encoded scalar prepends its UTF-16
code units. -/
lemma decode_escape_char (c : Nat) (hv : ValidScalar c) (s : List Nat) :
    decodeURIComponent (escapeFallback (utf8EncodeChar c) ++ s) =
      (decodeURIComponent s).map fun r => utf16EncodeChar c ++ r := by
  rcases Nat.lt_or_ge c 0x80 with h80 | h80
  · have h8 : utf8EncodeChar c = [c] := by simp [utf8EncodeChar, h80]
    rw [h8]
    by_cases hne : IsNonEscapedChar c
    · have he : escapeFallback [c] = [c] := by simp [escapeFallback, hne]
      rw [he, List.singleton_append, decodeURIComponent_lit (nonEscaped_ne_percent hne)]
      simp [utf16EncodeChar, show c < 0x10000 by omega]
    · have he : escapeFallback [c] = [0x25, hexDigitLower (c / 16), hexDigitLower (c % 16)] := by
        simp [escapeFallback, hne, show ¬ 0x100 ≤ c by omega,
          natToHexDigits_two (show c < 0x100 by omega)]
      rw [he]
      simp only [List.cons_append, List.nil_append]
      rw [decodeURIComponent_esc1 (isHexDigit_lower (by omega)) (isHexDigit_lower (by omega))
        (by rw [hex2_lower (by omega)]; omega)]
      simp only [hex2_lower (show c < 0x100 by omega)]
      simp [utf16EncodeChar, show c < 0x10000 by omega]
  · rcases Nat.lt_or_ge c 0x800 with h800 | h800
    · have h8 : utf8EncodeChar c = [0xC0 + c / 0x40, 0x80 + c % 0x40] := by
        simp [utf8EncodeChar, show ¬ c < 0x80 by omega, h800]
      rw [h8]
      have hb0 : ¬ IsNonEscapedChar (0xC0 + c / 0x40) := by unfold IsNonEscapedChar; omega
      have hb1 : ¬ IsNonEscapedChar (0x80 + c % 0x40) := by unfold IsNonEscapedChar; omega
      have he : escapeFallback [0xC0 + c / 0x40, 0x80 + c % 0x40] =
          [0x25, hexDigitLower ((0xC0 + c / 0x40) / 16), hexDigitLower ((0xC0 + c / 0x40) % 16),
           0x25, hexDigitLower ((0x80 + c % 0x40) / 16),
           hexDigitLower ((0x80 + c % 0x40) % 16)] := by
        simp [escapeFallback, hb0, hb1, show ¬ 0x100 ≤ 0xC0 + c / 0x40 by omega,
          show ¬ 0x100 ≤ 0x80 + c % 0x40 by omega,
          natToHexDigits_two (show 0xC0 + c / 0x40 < 0x100 by omega),
          natToHexDigits_two (show 0x80 + c % 0x40 < 0x100 by omega)]
      rw [he]
      simp only [List.cons_append, List.nil_append]
      have hval : utf8Val2 (0xC0 + c / 0x40) (0x80 + c % 0x40) = c := by
        unfold utf8Val2; omega
      rw [decodeURIComponent_esc2 (0xC0 + c / 0x40) (0x80 + c % 0x40) c (by omega) (by omega)
        (by omega) (by omega) ⟨by omega, by omega⟩ hval (by rw [← h8]) hv]
    · rcases Nat.lt_or_ge c 0x10000 with h10 | h10
      · have h8 : utf8EncodeChar c =
            [0xE0 + c / 0x1000, 0x80 + c / 0x40 % 0x40, 0x80 + c % 0x40] := by
          simp [utf8EncodeChar, show ¬ c < 0x80 by omega, show ¬ c < 0x800 by omega, h10]
        rw [h8]
        have hb0 : ¬ IsNonEscapedChar (0xE0 + c / 0x1000) := by unfold IsNonEscapedChar; omega
        have hb1 : ¬ IsNonEscapedChar (0x80 + c / 0x40 % 0x40) := by
          unfold IsNonEscapedChar; omega
        have hb2 : ¬ IsNonEscapedChar (0x80 + c % 0x40) := by unfold IsNonEscapedChar; omega
        have he : escapeFallback [0xE0 + c / 0x1000, 0x80 + c / 0x40 % 0x40, 0x80 + c % 0x40] =
            [0x25, hexDigitLower ((0xE0 + c / 0x1000) / 16),
             hexDigitLower ((0xE0 + c / 0x1000) % 16),
             0x25, hexDigitLower ((0x80 + c / 0x40 % 0x40) / 16),
             hexDigitLower ((0x80 + c / 0x40 % 0x40) % 16),
             0x25, hexDigitLower ((0x80 + c % 0x40) / 16),
             hexDigitLower ((0x80 + c % 0x40) % 16)] := by
          simp [escapeFallback, hb0, hb1, hb2, show ¬ 0x100 ≤ 0xE0 + c / 0x1000 by omega,
            show ¬ 0x100 ≤ 0x80 + c / 0x40 % 0x40 by omega,
            show ¬ 0x100 ≤ 0x80 + c % 0x40 by omega,
            natToHexDigits_two (show 0xE0 + c / 0x1000 < 0x100 by omega),
            natToHexDigits_two (show 0x80 + c / 0x40 % 0x40 < 0x100 by omega),
            natToHexDigits_two (show 0x80 + c % 0x40 < 0x100 by omega)]
        rw [he]
        simp only [List.cons_append, List.nil_append]
        have hval : utf8Val3 (0xE0 + c / 0x1000) (0x80 + c / 0x40 % 0x40) (0x80 + c % 0x40)
            = c := by
          unfold utf8Val3; omega
        rw [decodeURIComponent_esc3 (0xE0 + c / 0x1000) (0x80 + c / 0x40 % 0x40)
          (0x80 + c % 0x40) c (by omega) (by omega) (by omega) (by omega) (by omega)
          ⟨by omega, by omega⟩ ⟨by omega, by omega⟩ hval (by rw [← h8]) hv]
      · have hc1 : c < 0x110000 := hv.1
        have h8 : utf8EncodeChar c =
            [0xF0 + c / 0x40000, 0x80 + c / 0x1000 % 0x40, 0x80 + c / 0x40 % 0x40,
             0x80 + c % 0x40] := by
          simp [utf8EncodeChar, show ¬ c < 0x80 by omega, show ¬ c < 0x800 by omega,
            show ¬ c < 0x10000 by omega]
        rw [h8]
        have hb0 : ¬ IsNonEscapedChar (0xF0 + c / 0x40000) := by unfold IsNonEscapedChar; omega
        have hb1 : ¬ IsNonEscapedChar (0x80 + c / 0x1000 % 0x40) := by
          unfold IsNonEscapedChar; omega
        have hb2 : ¬ IsNonEscapedChar (0x80 + c / 0x40 % 0x40) := by
          unfold IsNonEscapedChar; omega
        have hb3 : ¬ IsNonEscapedChar (0x80 + c % 0x40) := by unfold IsNonEscapedChar; omega
        have he : escapeFallback [0xF0 + c / 0x40000, 0x80 + c / 0x1000 % 0x40,
            0x80 + c / 0x40 % 0x40, 0x80 + c % 0x40] =
            [0x25, hexDigitLower ((0xF0 + c / 0x40000) / 16),
             hexDigitLower ((0xF0 + c / 0x40000) % 16),
             0x25, hexDigitLower ((0x80 + c / 0x1000 % 0x40) / 16),
             hexDigitLower ((0x80 + c / 0x1000 % 0x40) % 16),
             0x25, hexDigitLower ((0x80 + c / 0x40 % 0x40) / 16),
             hexDigitLower ((0x80 + c / 0x40 % 0x40) % 16),
             0x25, hexDigitLower ((0x80 + c % 0x40) / 16),
             hexDigitLower ((0x80 + c % 0x40) % 16)] := by
          simp [escapeFallback, hb0, hb1, hb2, hb3,
            show ¬ 0x100 ≤ 0xF0 + c / 0x40000 by omega,
            show ¬ 0x100 ≤ 0x80 + c / 0x1000 % 0x40 by omega,
            show ¬ 0x100 ≤ 0x80 + c / 0x40 % 0x40 by omega,
            show ¬ 0x100 ≤ 0x80 + c % 0x40 by omega,
            natToHexDigits_two (show 0xF0 + c / 0x40000 < 0x100 by omega),
            natToHexDigits_two (show 0x80 + c / 0x1000 % 0x40 < 0x100 by omega),
            natToHexDigits_two (show 0x80 + c / 0x40 % 0x40 < 0x100 by omega),
            natToHexDigits_two (show 0x80 + c % 0x40 < 0x100 by omega)]
        rw [he]
        simp only [List.cons_append, List.nil_append]
        have hval : utf8Val4 (0xF0 + c / 0x40000) (0x80 + c / 0x1000 % 0x40)
            (0x80 + c / 0x40 % 0x40) (0x80 + c % 0x40) = c := by
          unfold utf8Val4; omega
        rw [decodeURIComponent_esc4 (0xF0 + c / 0x40000) (0x80 + c / 0x1000 % 0x40)
          (0x80 + c / 0x40 % 0x40) (0x80 + c % 0x40) c (by omega) (by omega) (by omega)
          (by omega) (by omega) (by omega) ⟨by omega, by omega⟩ ⟨by omega, by omega⟩
          ⟨by omega, by omega⟩ hval (by rw [← h8]) hv]

lemma decode_escape_all : ∀ t : List Nat, ValidText t →
    decodeURIComponent (escapeFallback (utf8Encode t)) = some (utf16Encode t) := by
  intro t
  induction t with
  | nil => intro _; rfl
  | cons c t ih =>
    intro hv
    have hc : ValidScalar c := hv c (by simp)
    have ht : ValidText t := fun d hd => hv d (by simp [hd])
    have hsplit : utf8Encode (c :: t) = utf8EncodeChar c ++ utf8Encode t := by
      simp [utf8Encode]
    rw [hsplit, escapeFallback_append, decode_escape_char c hc, ih ht]
    simp [utf16Encode]

/-! ## BOM stripping -/

lemma bomStrip_yes (l : List Nat) : bomStrip (0xEF :: 0xBB :: 0xBF :: l) = l := by
  simp [bomStrip]

lemma bomStrip_utf8Encode (t : List Nat) (hv : ValidText t) (hh : t.head? ≠ some 0xFEFF) :
    bomStrip (utf8Encode t) = utf8Encode t := by
  cases t with
  | nil => rfl
  | cons c t =>
    have hc : ValidScalar c := hv c (by simp)
    have hcne : c ≠ 0xFEFF := by
      intro he
      subst he
      exact hh rfl
    have hflat : utf8Encode (c :: t) = utf8EncodeChar c ++ utf8Encode t := by
      simp [utf8Encode]
    rw [hflat]
    unfold bomStrip
    rw [if_neg]
    intro hcond
    obtain ⟨h0, h1, h2⟩ := hcond
    rcases Nat.lt_or_ge c 0x80 with h80 | h80
    · have hE : utf8EncodeChar c = [c] := by simp [utf8EncodeChar, h80]
      rw [hE] at h0
      simp at h0
      omega
    · rcases Nat.lt_or_ge c 0x800 with h800 | h800
      · have hE : utf8EncodeChar c = [0xC0 + c / 0x40, 0x80 + c % 0x40] := by
          simp [utf8EncodeChar, show ¬ c < 0x80 by omega, h800]
        rw [hE] at h0
        simp at h0
        omega
      · rcases Nat.lt_or_ge c 0x10000 with h10 | h10
        · have hE : utf8EncodeChar c =
              [0xE0 + c / 0x1000, 0x80 + c / 0x40 % 0x40, 0x80 + c % 0x40] := by
            simp [utf8EncodeChar, show ¬ c < 0x80 by omega, show ¬ c < 0x800 by omega, h10]
          rw [hE] at h0 h1 h2
          simp at h0 h1 h2
          exact hcne (by omega)
        · have hE : utf8EncodeChar c =
              [0xF0 + c / 0x40000, 0x80 + c / 0x1000 % 0x40, 0x80 + c / 0x40 % 0x40,
               0x80 + c % 0x40] := by
            simp [utf8EncodeChar, show ¬ c < 0x80 by omega, show ¬ c < 0x800 by omega,
              show ¬ c < 0x10000 by omega]
          rw [hE] at h0
          simp at h0
          omega

/-! ## `utf8ToStr` assembly -/

lemma utf8ToStr_true (data : List Nat) :
    utf8ToStr true data =
      decodeURIComponent (escapeFallback (stringFromCharCodes (bomStrip data))) := by
  simp [utf8ToStr]

lemma utf8ToStr_of_encode (t : List Nat) (hv : ValidText t) (hh : t.head? ≠ some 0xFEFF) :
    utf8ToStr true (utf8Encode t) = some (utf16Encode t) := by
  rw [utf8ToStr_true, bomStrip_utf8Encode t hv hh,
    stringFromCharCodes_bytes _ (fun b hb => by have := utf8Encode_lt t hv b hb; omega),
    decode_escape_all t hv]

lemma utf8ToStr_bom (t : List Nat) (hv : ValidText t) :
    utf8ToStr true (utf8Encode (0xFEFF :: t)) = some (utf16Encode t) := by
  have hch : utf8EncodeChar 0xFEFF = [0xEF, 0xBB, 0xBF] := by decide
  have hsplit : utf8Encode (0xFEFF :: t) = 0xEF :: 0xBB :: 0xBF :: utf8Encode t := by
    simp [utf8Encode, hch]
  rw [utf8ToStr_true, hsplit, bomStrip_yes,
    stringFromCharCodes_bytes _ (fun b hb => by have := utf8Encode_lt t hv b hb; omega),
    decode_escape_all t hv]

lemma bomStrip_of_take {l : List Nat} (h : l.take 3 ≠ [0xEF, 0xBB, 0xBF]) :
    bomStrip l = l := by
  rcases l with _ | ⟨a, _ | ⟨b, _ | ⟨c, r⟩⟩⟩
  · rfl
  · simp [bomStrip]
  · simp [bomStrip]
  · have ht : (a :: b :: c :: r).take 3 = [a, b, c] := rfl
    rw [ht] at h
    unfold bomStrip
    rw [if_neg]
    intro hcond
    obtain ⟨h0, h1, h2⟩ := hcond
    simp at h0 h1 h2
    exact h (by simp [h0, h1, h2])

/-! ## Claim C1 -/

/-- **C1** — counterexample to the claim as stated: the text consisting of the
single scalar U+FEFF round-trips to the empty text, because its UTF-8 encoding
is exactly the three BOM bytes, which `utf8ToStr` strips before decoding. -/
theorem claim_C1_counterexample :
    (strToUtf8 true (utf16Encode [0xFEFF])).bind (utf8ToStr true) ≠
      some (utf16Encode [0xFEFF]) := by
  decide

/-- **C1** (amended).  For every text `t` that does not begin with U+FEFF,
decoding the UTF-8 encoding of `t` returns `t` — on both `unescape`
availability paths of `strToUtf8`; when `t` does begin with U+FEFF, the
decoder reads that first scalar's encoding as a BOM, strips it, and returns
the remaining text. -/
theorem claim_C1_roundtrip (ua : Bool) (t : List Nat) (hv : ValidText t) :
    (t.head? ≠ some 0xFEFF →
      (strToUtf8 ua (utf16Encode t)).bind (utf8ToStr true) = some (utf16Encode t)) ∧
    (strToUtf8 ua (utf16Encode (0xFEFF :: t))).bind (utf8ToStr true) =
      some (utf16Encode t) := by
  constructor
  · intro hh
    rw [strToUtf8_text ua t hv]
    show utf8ToStr true (utf8Encode t) = _
    exact utf8ToStr_of_encode t hv hh
  · have hv2 : ValidText (0xFEFF :: t) := by
      intro d hd
      rcases List.mem_cons.mp hd with h | h
      · subst h; decide
      · exact hv d h
    rw [strToUtf8_text ua _ hv2]
    show utf8ToStr true (utf8Encode (0xFEFF :: t)) = _
    exact utf8ToStr_bom t hv

/-- **C1** witness: the amended round trip evaluated on the text
`"gé€𐍈"` (scalars from all four UTF-8 byte-lengths) and on a text headed by
U+FEFF. -/
theorem claim_C1_roundtrip_witness :
    (strToUtf8 false (utf16Encode [0x67, 0xE9, 0x20AC, 0x10348])).bind (utf8ToStr true) =
        some (utf16Encode [0x67, 0xE9, 0x20AC, 0x10348]) ∧
    (strToUtf8 true (utf16Encode (0xFEFF :: [0x41]))).bind (utf8ToStr true) =
        some (utf16Encode [0x41]) :=
  ⟨(claim_C1_roundtrip false [0x67, 0xE9, 0x20AC, 0x10348] (by decide)).1 (by decide),
   (claim_C1_roundtrip true [0x41] (by decide)).2⟩

/-! ## Claim C3 -/

/-- **C3** — the availability branch of `utf8ToStr` is inverted in the code:
`if (typeof window.escape !== "function") { escaped = escape(utf8Str); }`
calls the native `escape` exactly when it is missing, so that path throws
(`none`), and when the primitive *is* available the self-contained fallback
runs instead.  `strToUtf8`'s branch is oriented correctly and both of its
paths agree. -/
theorem claim_C3_branch_inverted :
    utf8ToStr false [0x41] = none ∧
    utf8ToStr true [0x41] = some [0x41] ∧
    strToUtf8 true [0x41] = some [0x41] ∧
    strToUtf8 false [0x41] = some [0x41] := by
  decide

/-! ## Claim C6 -/

/-- **C6** — counterexample to the claim as stated: when `bytes` itself begins
with the BOM, prefixing another BOM is not neutral, because only the first
BOM is stripped. -/
theorem claim_C6_counterexample :
    utf8ToStr true ([0xEF, 0xBB, 0xBF] ++ [0xEF, 0xBB, 0xBF]) ≠
      utf8ToStr true [0xEF, 0xBB, 0xBF] := by
  decide

/-- **C6** (amended).  Prepending the three-byte BOM `EF BB BF` is neutral for
decoding whenever the buffer does not itself begin with that BOM. -/
theorem claim_C6_bom (bytes : List Nat) (h : bytes.take 3 ≠ [0xEF, 0xBB, 0xBF]) :
    utf8ToStr true (0xEF :: 0xBB :: 0xBF :: bytes) = utf8ToStr true bytes := by
  rw [utf8ToStr_true, utf8ToStr_true, bomStrip_yes, bomStrip_of_take h]

/-- **C6** witness: the amended statement evaluated on `[0x41]`. -/
theorem claim_C6_bom_witness :
    utf8ToStr true (0xEF :: 0xBB :: 0xBF :: [0x41]) = utf8ToStr true [0x41] :=
  claim_C6_bom [0x41] (by decide)

/-! ## Claim C7 -/

/-- **C7** (confirmed, on the executable escape-available path of
`utf8ToStr`).  `strToUtf8` succeeds on every text on both availability paths;
`utf8ToStr` succeeds on every well-formed UTF-8 buffer; the only failure point
of `utf8ToStr` is the final percent-decoding step, which does fail on
malformed input such as `[0x80]`; `leUtf16ToStr` and `strToLeUtf16` are total;
and empty buffers and empty text are handled without error everywhere. -/
theorem claim_C7_errors :
    (∀ (ua : Bool) (t : List Nat), ValidText t →
      (strToUtf8 ua (utf16Encode t)).isSome) ∧
    (∀ t : List Nat, ValidText t → (utf8ToStr true (utf8Encode t)).isSome) ∧
    (∀ data : List Nat, utf8ToStr true data = none ↔
      decodeURIComponent (escapeFallback (stringFromCharCodes (bomStrip data))) = none) ∧
    (∀ bytes : List Nat, (leUtf16ToStr bytes).length = (bytes.length + 1) / 2) ∧
    (∀ s : List Nat, (strToLeUtf16 s).length = 2 * s.length) ∧
    strToUtf8 true [] = some [] ∧ strToUtf8 false [] = some [] ∧
    utf8ToStr true [] = some [] ∧ strToLeUtf16 [] = [] ∧ leUtf16ToStr [] = [] ∧
    utf8ToStr true [0x80] = none := by
  refine ⟨?_, ?_, ?_, leUtf16ToStr_length, strToLeUtf16_length, by decide, by decide,
    by decide, rfl, rfl, by decide⟩
  · intro ua t hv
    rw [strToUtf8_text ua t hv]
    rfl
  · intro t hv
    rcases t with _ | ⟨c, t⟩
    · decide
    · by_cases hc : c = 0xFEFF
      · subst hc
        rw [utf8ToStr_bom t (fun d hd => hv d (by simp [hd]))]
        rfl
      · rw [utf8ToStr_of_encode _ hv (by simp [hc])]
        rfl
  · intro data
    rw [utf8ToStr_true]

/-- **C7** witness: the hypothesis-bearing parts evaluated concretely. -/
theorem claim_C7_errors_witness :
    (strToUtf8 true (utf16Encode [0xE9])).isSome ∧
    (utf8ToStr true (utf8Encode [0xFEFF, 0x41])).isSome :=
  ⟨claim_C7_errors.1 true [0xE9] (by decide), claim_C7_errors.2.1 [0xFEFF, 0x41] (by decide)⟩

/-! ## Claim C10 -/

/-- **C10** — counterexample to the claim as stated: `[0xEF, 0xBB]` is indeed
not treated as a BOM, but it is not "decoded in full" either — it is malformed
UTF-8, so the percent-decoding step raises an error. -/
theorem claim_C10_counterexample :
    bomStrip [0xEF, 0xBB] = [0xEF, 0xBB] ∧ utf8ToStr true [0xEF, 0xBB] = none := by
  decide

/-- **C10** (amended).  For every input of length < 3 the BOM prefix check
reads the out-of-range indices 0, 1, 2 safely (an out-of-range read yields no
match, not a failure) and strips nothing, so every byte is passed on to the
decoder — which may still fail on malformed UTF-8, as it does on
`[0xEF, 0xBB]`. -/
theorem claim_C10_short (data : List Nat) (h : data.length < 3) :
    bomStrip data = data ∧
    utf8ToStr true data =
      decodeURIComponent (escapeFallback (stringFromCharCodes data)) := by
  have hb : bomStrip data = data := by
    rcases data with _ | ⟨a, _ | ⟨b, _ | ⟨c, r⟩⟩⟩
    · rfl
    · simp [bomStrip]
    · simp [bomStrip]
    · simp only [List.length_cons] at h
      omega
  exact ⟨hb, by rw [utf8ToStr_true, hb]⟩

/-- **C10** witness: the amended statement evaluated on `[0xEF, 0xBB]`. -/
theorem claim_C10_short_witness :
    bomStrip [0xEF, 0xBB] = [0xEF, 0xBB] ∧
    utf8ToStr true [0xEF, 0xBB] =
      decodeURIComponent (escapeFallback (stringFromCharCodes [0xEF, 0xBB])) :=
  claim_C10_short [0xEF, 0xBB] (by decide)

end RxBytes
